import Mathlib

/-!
Verification of the order-queue / worker-pool engine of this repository.

The embedding follows the TypeScript source closely:

* `OrderManager` (src/src/BaseClass/Order.ts): four ordered collections
  (`queueCache`, `queueVipOrder`, `queueNormalOrder`, `queueComplete`), the
  module-level `getUid` counter (modelled as the `nextUid` field, since a run
  uses a single manager), and the pub/sub channel.  Each operation is a pure
  state transformer that additionally returns the list of events it publishes,
  in publish order.
* `Bot` (src/src/BaseClass/Bot.ts, richer per-tick variant): pickup
  (`Bot.processNextOrder`), the interval tick body (`Bot.tick`) and
  `Bot.destroy`.
* `Controller` (src/src/Controller/index.ts): the subscription handler that
  wakes every IDLE bot on an ORDER_ADDED event, and the system-level
  operations `increase` / `decrease` / order creation, with synchronous
  delivery of published events to the controller's handler.
-/

namespace Engine

inductive OrderStatus where
  | PENDING
  | COMPLETE
deriving DecidableEq, Repr

inductive OrderType where
  | NORMAL
  | VIP
deriving DecidableEq, Repr

inductive EventType where
  | ORDER_ADDED
  | ORDER_UPDATED
  | ORDER_COUNTER
deriving DecidableEq, Repr

structure OrderEvent where
  type : EventType
deriving DecidableEq, Repr

/-- A work item (`class Order`).  `counter` is the per-tick countdown; the JS
`counter--` is modelled on `Int`. -/
structure Order where
  status : OrderStatus
  uid : Nat
  orderType : OrderType
  counter : Int
deriving DecidableEq, Repr

/-- The order registry (`class OrderManager`).  `nextUid` models the
module-level `getUid` closure counter. -/
structure OrderManager where
  queueCache : List Order
  queueVipOrder : List Order
  queueNormalOrder : List Order
  queueComplete : List Order
  nextUid : Nat
deriving DecidableEq, Repr

def initOrderManager : OrderManager :=
  { queueCache := [], queueVipOrder := [], queueNormalOrder := [],
    queueComplete := [], nextUid := 0 }

/-- `new Order({type})`: status PENDING, fresh uid, counter 0. -/
def OrderManager.newOrder (m : OrderManager) (t : OrderType) : Order :=
  { status := OrderStatus.PENDING, uid := m.nextUid, orderType := t, counter := 0 }

/-- `createNormalOrder()`: append to the normal queue, publish ORDER_ADDED. -/
def OrderManager.createNormalOrder (m : OrderManager) :
    OrderManager × Order × List OrderEvent :=
  let order := m.newOrder OrderType.NORMAL
  ({ m with queueNormalOrder := m.queueNormalOrder ++ [order],
            nextUid := m.nextUid + 1 },
   order, [{ type := EventType.ORDER_ADDED }])

/-- `createVipOrder()`: append to the VIP queue, publish ORDER_ADDED. -/
def OrderManager.createVipOrder (m : OrderManager) :
    OrderManager × Order × List OrderEvent :=
  let order := m.newOrder OrderType.VIP
  ({ m with queueVipOrder := m.queueVipOrder ++ [order],
            nextUid := m.nextUid + 1 },
   order, [{ type := EventType.ORDER_ADDED }])

/-- `processNextOrder()`: `shift()` from cache, else VIP, else normal; publish
ORDER_UPDATED exactly when an order was obtained. -/
def OrderManager.processNextOrder (m : OrderManager) :
    OrderManager × Option Order × List OrderEvent :=
  match m.queueCache with
  | o :: rest =>
    ({ m with queueCache := rest }, some o, [{ type := EventType.ORDER_UPDATED }])
  | [] =>
    match m.queueVipOrder with
    | o :: rest =>
      ({ m with queueVipOrder := rest }, some o, [{ type := EventType.ORDER_UPDATED }])
    | [] =>
      match m.queueNormalOrder with
      | o :: rest =>
        ({ m with queueNormalOrder := rest }, some o,
         [{ type := EventType.ORDER_UPDATED }])
      | [] => (m, none, [])

/-- `completeOrder(order)`: set status COMPLETE, push onto the completed
queue, publish ORDER_UPDATED.  There is no in-flight check in the source. -/
def OrderManager.completeOrder (m : OrderManager) (o : Order) :
    OrderManager × List OrderEvent :=
  let o' := { o with status := OrderStatus.COMPLETE }
  ({ m with queueComplete := m.queueComplete ++ [o'] },
   [{ type := EventType.ORDER_UPDATED }])

/-- `updateCache(order)`: `unshift` onto the front of the recovery queue,
publish ORDER_UPDATED.  Unconditional in the source. -/
def OrderManager.updateCache (m : OrderManager) (o : Order) :
    OrderManager × List OrderEvent :=
  ({ m with queueCache := o :: m.queueCache },
   [{ type := EventType.ORDER_UPDATED }])

/-- `getOrderList()`: cache ++ VIP ++ normal ++ completed. -/
def OrderManager.getOrderList (m : OrderManager) : List Order :=
  m.queueCache ++ m.queueVipOrder ++ m.queueNormalOrder ++ m.queueComplete

/-- How many orders with uid `u` appear across all four collections. -/
def OrderManager.countUid (m : OrderManager) (u : Nat) : Nat :=
  (m.getOrderList.filter (fun o => o.uid = u)).length

inductive BotStatus where
  | RUN
  | IDLE
deriving DecidableEq, Repr

inductive BotType where
  | NORMAL
  | VIP
deriving DecidableEq, Repr

/-- A worker (`class Bot`, per-tick variant).  `hasTimer` records whether an
interval is currently scheduled (`counterHandle` active). -/
structure Bot where
  status : BotStatus
  uid : Nat
  type : BotType
  currentOrder : Option Order
  hasTimer : Bool
  isDestroyed : Bool
deriving DecidableEq, Repr

/-- `Bot.processNextOrder()` (pickup-and-run entry): dequeue from the manager;
if nothing, go IDLE; otherwise `updateOrder` (RUN, hold the order), set the
order's counter to 5 (VIP bot) or 10 (NORMAL bot), publish ORDER_COUNTER and
start the interval. -/
def Bot.processNextOrder (m : OrderManager) (b : Bot) :
    OrderManager × Bot × List OrderEvent :=
  let r := m.processNextOrder
  match r.2.1 with
  | none => (r.1, { b with status := BotStatus.IDLE }, r.2.2)
  | some o =>
    let o' := { o with counter := if b.type = BotType.VIP then 5 else 10 }
    (r.1,
     { b with status := BotStatus.RUN, currentOrder := some o', hasTimer := true },
     r.2.2 ++ [{ type := EventType.ORDER_COUNTER }])

/-- One firing of the bot's interval callback: decrement the held order's
counter, publish ORDER_COUNTER; when the counter hits 0, clear the interval,
`completeOrder` the held order, clear `currentOrder` and recurse into pickup.
A bot with no held order ticks to itself (the callback closes over the order,
so this case cannot fire in the running system). -/
def Bot.tick (m : OrderManager) (b : Bot) :
    OrderManager × Bot × List OrderEvent :=
  match b.currentOrder with
  | none => (m, b, [])
  | some o =>
    let o' := { o with counter := o.counter - 1 }
    if o'.counter = 0 then
      let rc := m.completeOrder o'
      let b1 := { b with currentOrder := none, hasTimer := false }
      let rp := Bot.processNextOrder rc.1 b1
      (rp.1, rp.2.1,
       [{ type := EventType.ORDER_COUNTER }] ++ rc.2 ++ rp.2.2)
    else
      (m, { b with currentOrder := some o' }, [{ type := EventType.ORDER_COUNTER }])

/-- `destroy()`: clear the timer; if no order is held, return early (status and
`isDestroyed` untouched); otherwise `updateCache` the held order, clear it,
set status IDLE and mark destroyed. -/
def Bot.destroy (m : OrderManager) (b : Bot) :
    OrderManager × Bot × List OrderEvent :=
  let b0 := { b with hasTimer := false }
  match b.currentOrder with
  | none => (m, b0, [])
  | some o =>
    let rc := m.updateCache o
    (rc.1,
     { b0 with currentOrder := none, status := BotStatus.IDLE, isDestroyed := true },
     rc.2)

/-- `new Bot({...})`: starts IDLE with no order, then immediately attempts a
pickup. -/
def Bot.make (m : OrderManager) (uid : Nat) (t : BotType) :
    OrderManager × Bot × List OrderEvent :=
  Bot.processNextOrder m
    { status := BotStatus.IDLE, uid := uid, type := t, currentOrder := none,
      hasTimer := false, isDestroyed := false }

/-- `Controller.hasIdleBot()`. -/
def hasIdleBot (bots : List Bot) : Bool :=
  bots.any (fun b => decide (b.status = BotStatus.IDLE))

/-- The `forEach` body of the controller's ORDER_ADDED handler: every bot that
is IDLE at its turn attempts a pickup, in list order; the manager state
threads through. -/
def wakeIdleBots (m : OrderManager) (bots : List Bot) :
    OrderManager × List Bot × List OrderEvent :=
  match bots with
  | [] => (m, [], [])
  | b :: rest =>
    if b.status = BotStatus.IDLE then
      let r1 := Bot.processNextOrder m b
      let r2 := wakeIdleBots r1.1 rest
      (r2.1, r1.2.1 :: r2.2.1, r1.2.2 ++ r2.2.2)
    else
      let r2 := wakeIdleBots m rest
      (r2.1, b :: r2.2.1, r2.2.2)

/-- The controller's subscription callback: wake all idle bots on ORDER_ADDED
when at least one bot is idle; ignore every other event. -/
def controllerHandler (e : OrderEvent) (m : OrderManager) (bots : List Bot) :
    OrderManager × List Bot × List OrderEvent :=
  if e.type = EventType.ORDER_ADDED ∧ hasIdleBot bots = true then
    wakeIdleBots m bots
  else (m, bots, [])

/-- Deliver a trace of published events to the controller's handler, in
publish order. -/
def deliverEvents (m : OrderManager) (bots : List Bot) :
    List OrderEvent → OrderManager × List Bot
  | [] => (m, bots)
  | e :: rest =>
    let r := controllerHandler e m bots
    deliverEvents r.1 r.2.1 rest

/-- The whole engine: the registry, the controller's bot list, and the bots'
module-level uid counter. -/
structure System where
  manager : OrderManager
  bots : List Bot
  nextBotUid : Nat
deriving DecidableEq, Repr

def initSystem : System :=
  { manager := initOrderManager, bots := [], nextBotUid := 0 }

/-- `createNormalOrder` at system level: create, then synchronously deliver
the published ORDER_ADDED to the controller. -/
def systemCreateNormalOrder (s : System) : System × Order :=
  let rc := s.manager.createNormalOrder
  let rd := deliverEvents rc.1 s.bots rc.2.2
  ({ s with manager := rd.1, bots := rd.2 }, rc.2.1)

/-- `createVipOrder` at system level. -/
def systemCreateVipOrder (s : System) : System × Order :=
  let rc := s.manager.createVipOrder
  let rd := deliverEvents rc.1 s.bots rc.2.2
  ({ s with manager := rd.1, bots := rd.2 }, rc.2.1)

/-- `Controller.increase()`: construct a bot (which immediately attempts a
pickup, publishing only non-ADDED events) and push it onto the managed list. -/
def systemIncrease (s : System) (t : BotType) : System :=
  let rb := Bot.make s.manager s.nextBotUid t
  let rd := deliverEvents rb.1 s.bots rb.2.2
  { manager := rd.1, bots := rd.2 ++ [rb.2.1], nextBotUid := s.nextBotUid + 1 }

/-- `Controller.decrease()`: pop the most recently added bot and destroy it;
the destroy's published events (never ORDER_ADDED) go through the handler. -/
def systemDecrease (s : System) : System :=
  match s.bots.getLast? with
  | none => s
  | some b =>
    let rb := Bot.destroy s.manager b
    let rd := deliverEvents rb.1 s.bots.dropLast rb.2.2
    { s with manager := rd.1, bots := rd.2 }

/-- One firing of the interval of the bot at index `i` (only a bot with an
active interval can tick). -/
def systemTick (s : System) (i : Nat) : System :=
  match s.bots[i]? with
  | none => s
  | some b =>
    if b.hasTimer = true then
      let rt := Bot.tick s.manager b
      let rd := deliverEvents rt.1 (s.bots.set i rt.2.1) rt.2.2
      { s with manager := rd.1, bots := rd.2 }
    else s

/-- States reachable through the engine's external operations. -/
inductive Reachable : System → Prop where
  | init : Reachable initSystem
  | createNormal (s : System) : Reachable s → Reachable (systemCreateNormalOrder s).1
  | createVip (s : System) : Reachable s → Reachable (systemCreateVipOrder s).1
  | increase (s : System) (t : BotType) : Reachable s → Reachable (systemIncrease s t)
  | decrease (s : System) : Reachable s → Reachable (systemDecrease s)
  | tick (s : System) (i : Nat) : Reachable s → Reachable (systemTick s i)



/-! ### Claim C1: dequeue priority and its event -/

/-- Claim C1: `processNextOrder` returns the head of the recovery queue if
non-empty, else the head of the VIP queue, else the head of the normal queue,
else `none`; and it publishes exactly one ORDER_UPDATED event exactly when an
order is returned. -/
theorem processNextOrder_priority (m : OrderManager) :
    m.processNextOrder.2.1
      = (m.queueCache.head?.or (m.queueVipOrder.head?.or m.queueNormalOrder.head?))
    ∧ m.processNextOrder.2.2
      = (if m.processNextOrder.2.1.isSome
         then [{ type := EventType.ORDER_UPDATED }] else []) := by
  rcases hc : m.queueCache with _ | ⟨o, rest⟩ <;>
    rcases hv : m.queueVipOrder with _ | ⟨o2, rest2⟩ <;>
    rcases hn : m.queueNormalOrder with _ | ⟨o3, rest3⟩ <;>
    simp [OrderManager.processNextOrder, hc, hv, hn]

/-! ### Claim C3: recovery goes to the very front -/

/-- Claim C3: `updateCache` pushes onto the front of the recovery queue, so the
next dequeue returns the recovered order ahead of everything else, recoveries
are LIFO among themselves, and the recovery publishes ORDER_UPDATED. -/
theorem recover_is_next_dequeued (m : OrderManager) (x y : Order) :
    ((m.updateCache x).1.processNextOrder.2.1 = some x)
    ∧ (((m.updateCache x).1.updateCache y).1.processNextOrder.2.1 = some y)
    ∧ (((m.updateCache x).1.updateCache y).1.processNextOrder.1.processNextOrder.2.1
        = some x)
    ∧ (m.updateCache x).2 = [{ type := EventType.ORDER_UPDATED }] := by
  simp [OrderManager.updateCache, OrderManager.processNextOrder]

/-! ### Claim C8: uid generation -/

/-- One external order-creation request, by category. -/
inductive CreateOp where
  | normal
  | vip
deriving DecidableEq, Repr

/-- Run a sequence of `createNormalOrder` / `createVipOrder` calls, collecting
the created orders in call order. -/
def runCreates (m : OrderManager) : List CreateOp → OrderManager × List Order
  | [] => (m, [])
  | op :: rest =>
    let r := match op with
             | CreateOp.normal => m.createNormalOrder
             | CreateOp.vip => m.createVipOrder
    let rr := runCreates r.1 rest
    (rr.1, r.2.1 :: rr.2)

theorem runCreates_uids (ops : List CreateOp) (m : OrderManager) :
    (runCreates m ops).2.map Order.uid = List.range' m.nextUid ops.length := by
  induction ops generalizing m with
  | nil => simp [runCreates]
  | cons op rest ih =>
    cases op <;>
      simp [runCreates, OrderManager.createNormalOrder, OrderManager.createVipOrder,
            OrderManager.newOrder, ih, List.range'_succ]

/-- Claim C8: across any interleaving of normal and VIP creations on a fresh
registry, the created orders draw uids from one shared counter: they are
exactly 0, 1, 2, ... in creation order, hence strictly increasing and
pairwise distinct. -/
theorem created_uids_strictly_increasing (ops : List CreateOp) :
    ((runCreates initOrderManager ops).2.map Order.uid = List.range ops.length)
    ∧ ((runCreates initOrderManager ops).2.map Order.uid).Pairwise (fun a b => a < b)
    ∧ ((runCreates initOrderManager ops).2.map Order.uid).Nodup := by
  have h := runCreates_uids ops initOrderManager
  have hr : List.range' 0 ops.length = List.range ops.length := by
    rw [List.range_eq_range']
  refine ⟨by rw [h, initOrderManager] at *; exact hr, ?_, ?_⟩
  · rw [h]; simp [initOrderManager]
    rw [hr]; exact List.pairwise_lt_range ops.length
  · rw [h]; simp [initOrderManager]
    rw [hr]; exact List.nodup_range ops.length

/-! ### Claim C2: complete / recover have no in-flight guard -/

def c2Order : Order :=
  { status := OrderStatus.PENDING, uid := 0, orderType := OrderType.NORMAL,
    counter := 0 }

/-- Claim C2 counterexample: completing the same order twice on a fresh
registry leaves two copies of uid 0 in the collections, so the second
`completeOrder` is not a no-op and the order is duplicated. -/
theorem double_complete_duplicates :
    ¬ (((initOrderManager.completeOrder c2Order).1.completeOrder c2Order).1.countUid 0
        ≤ 1) := by
  decide

/-- Claim C2 amended: `completeOrder` and `updateCache` perform no in-flight
check; each call unconditionally appends (respectively prepends) its argument,
so every call increases the number of occurrences of that order's uid across
the four collections by exactly one — in particular repeated calls duplicate
the order. -/
theorem complete_recover_always_append (m : OrderManager) (o : Order) :
    ((m.completeOrder o).1.countUid o.uid = m.countUid o.uid + 1)
    ∧ ((m.updateCache o).1.countUid o.uid = m.countUid o.uid + 1) := by
  constructor <;>
    simp [OrderManager.completeOrder, OrderManager.updateCache,
          OrderManager.countUid, OrderManager.getOrderList, List.filter_append]
  omega

/-! ### Claim C4: destroy's early return when no order is held -/

def c4IdleBot : Bot :=
  { status := BotStatus.IDLE, uid := 0, type := BotType.NORMAL,
    currentOrder := none, hasTimer := false, isDestroyed := false }

def c4HeldOrder : Order :=
  { status := OrderStatus.PENDING, uid := 3, orderType := OrderType.NORMAL,
    counter := 7 }

def c4RunBot : Bot :=
  { status := BotStatus.RUN, uid := 1, type := BotType.NORMAL,
    currentOrder := some c4HeldOrder, hasTimer := true, isDestroyed := false }

/-- Claim C4 counterexample: destroying a bot that holds no order does not
mark it destroyed — `destroy` returns right after clearing the timer. -/
theorem destroy_idle_not_marked :
    ¬ ((Bot.destroy initOrderManager c4IdleBot).2.1.isDestroyed = true) := by
  decide

/-- Claim C4 amended: `destroy` always clears the timer; when the bot holds an
order it returns that order to the front of the recovery queue, clears
`currentOrder`, sets status IDLE and marks the bot destroyed (and the cleared
timer means no further tick fires); but when the bot holds no order it
returns early, leaving the manager, the status and the destroyed flag
untouched and publishing nothing. -/
theorem destroy_cases (m : OrderManager) (b : Bot) :
    ((Bot.destroy m b).2.1.hasTimer = false)
    ∧ (b.currentOrder = none →
        Bot.destroy m b = (m, { b with hasTimer := false }, []))
    ∧ (∀ o, b.currentOrder = some o →
        (Bot.destroy m b).1.queueCache = o :: m.queueCache
        ∧ (Bot.destroy m b).1.queueVipOrder = m.queueVipOrder
        ∧ (Bot.destroy m b).1.queueNormalOrder = m.queueNormalOrder
        ∧ (Bot.destroy m b).1.queueComplete = m.queueComplete
        ∧ (Bot.destroy m b).2.1.currentOrder = none
        ∧ (Bot.destroy m b).2.1.status = BotStatus.IDLE
        ∧ (Bot.destroy m b).2.1.isDestroyed = true
        ∧ (Bot.destroy m b).2.2 = [{ type := EventType.ORDER_UPDATED }]) := by
  rcases h : b.currentOrder with _ | o' <;>
    simp [Bot.destroy, OrderManager.updateCache, h]

/-- Witness for the amended C4, at one idle and one running bot. -/
theorem destroy_cases_witness :
    (Bot.destroy initOrderManager c4IdleBot
      = (initOrderManager, { c4IdleBot with hasTimer := false }, []))
    ∧ ((Bot.destroy initOrderManager c4RunBot).1.queueCache
        = c4HeldOrder :: initOrderManager.queueCache)
    ∧ ((Bot.destroy initOrderManager c4RunBot).2.1.isDestroyed = true) :=
  ⟨(destroy_cases initOrderManager c4IdleBot).2.1 rfl,
   ((destroy_cases initOrderManager c4RunBot).2.2 c4HeldOrder rfl).1,
   ((destroy_cases initOrderManager c4RunBot).2.2 c4HeldOrder rfl).2.2.2.2.2.2.1⟩

/-! ### Claim C7: synchronous publish, in registration order -/

/-- `publish(data)`: `messageQueue.forEach(task => task(data))`, over an
arbitrary observer state: each subscriber is applied in registration order,
observing the manager state current at publish time. -/
def publishTo {α : Type} (subs : List (OrderEvent → OrderManager → α → α))
    (e : OrderEvent) (m : OrderManager) (a : α) : α :=
  subs.foldl (fun acc h => h e m acc) a

/-- `createNormalOrder()` with its inline `publish` made explicit: the order
is pushed first, then ORDER_ADDED is delivered to every subscriber before the
call returns. -/
def OrderManager.createNormalOrderWith {α : Type} (m : OrderManager)
    (subs : List (OrderEvent → OrderManager → α → α)) (a : α) :
    OrderManager × Order × α :=
  let order := m.newOrder OrderType.NORMAL
  let m' := { m with queueNormalOrder := m.queueNormalOrder ++ [order],
                     nextUid := m.nextUid + 1 }
  (m', order, publishTo subs { type := EventType.ORDER_ADDED } m' a)

/-- `createVipOrder()` with its inline `publish` made explicit. -/
def OrderManager.createVipOrderWith {α : Type} (m : OrderManager)
    (subs : List (OrderEvent → OrderManager → α → α)) (a : α) :
    OrderManager × Order × α :=
  let order := m.newOrder OrderType.VIP
  let m' := { m with queueVipOrder := m.queueVipOrder ++ [order],
                     nextUid := m.nextUid + 1 }
  (m', order, publishTo subs { type := EventType.ORDER_ADDED } m' a)

/-- A subscriber that logs its own tag together with whether an order with uid
`target` is visible in `getOrderList` at the instant it is invoked. -/
def seesOrder (target : Nat) (tag : Nat) :
    OrderEvent → OrderManager → List (Nat × Bool) → List (Nat × Bool) :=
  fun _ mm log => log ++ [(tag, (mm.getOrderList.map Order.uid).contains target)]

theorem publishTo_seesOrder (target : Nat) (e : OrderEvent) (mm : OrderManager)
    (tags : List Nat) (log : List (Nat × Bool)) :
    publishTo (tags.map (seesOrder target)) e mm log
      = log ++ tags.map
          (fun i => (i, (mm.getOrderList.map Order.uid).contains target)) := by
  induction tags generalizing log with
  | nil => simp [publishTo]
  | cons t rest ih => simp [publishTo, seesOrder] at ih ⊢; simp [ih]

/-- Claim C7: `publish` reaches every subscriber synchronously and in
registration order before the creation returns, and every subscriber already
observes the created order in `getOrderList`: a family of logging subscribers
indexed 0..n-1 produces exactly the log [(0, true), ..., (n-1, true)], for
both `createNormalOrder` and `createVipOrder`; the instrumented operations
agree with the plain ones on the resulting registry and order. -/
theorem publish_delivers_in_order_with_order_visible (m : OrderManager) (n : Nat) :
    ((m.createNormalOrderWith ((List.range n).map (seesOrder m.nextUid))
        ([] : List (Nat × Bool))).2.2
      = (List.range n).map (fun i => (i, true)))
    ∧ ((m.createVipOrderWith ((List.range n).map (seesOrder m.nextUid))
        ([] : List (Nat × Bool))).2.2
      = (List.range n).map (fun i => (i, true)))
    ∧ ((m.createNormalOrderWith ((List.range n).map (seesOrder m.nextUid))
        ([] : List (Nat × Bool))).1 = m.createNormalOrder.1)
    ∧ ((m.createNormalOrderWith ((List.range n).map (seesOrder m.nextUid))
        ([] : List (Nat × Bool))).2.1 = m.createNormalOrder.2.1)
    ∧ ((m.createVipOrderWith ((List.range n).map (seesOrder m.nextUid))
        ([] : List (Nat × Bool))).1 = m.createVipOrder.1)
    ∧ ((m.createVipOrderWith ((List.range n).map (seesOrder m.nextUid))
        ([] : List (Nat × Bool))).2.1 = m.createVipOrder.2.1) := by
  refine ⟨?_, ?_, rfl, rfl, rfl, rfl⟩ <;>
    simp only [OrderManager.createNormalOrderWith, OrderManager.createVipOrderWith,
               publishTo_seesOrder] <;>
    simp [OrderManager.getOrderList, OrderManager.newOrder]

/-! ### Claim C6: pickup duration and tick processing -/

/-- Claim C6: on pickup the held order's counter is set to 5 for a VIP bot and
10 for a NORMAL bot and a PROGRESS (ORDER_COUNTER) event follows the dequeue
event; a non-final tick decrements the counter by one and publishes PROGRESS
only; the final tick (counter 1 → 0) publishes PROGRESS, stops the timer,
moves the completed order (status COMPLETE, counter 0) into the completed
queue via `completeOrder`, clears `currentOrder`, and immediately recurses
into pickup on the remaining queues. -/
theorem processNextOrder_event_of_some (m : OrderManager) (x : Order)
    (h : m.processNextOrder.2.1 = some x) :
    m.processNextOrder.2.2 = [{ type := EventType.ORDER_UPDATED }] := by
  rcases hc : m.queueCache with _ | ⟨o1, r1⟩ <;>
    rcases hv : m.queueVipOrder with _ | ⟨o2, r2⟩ <;>
    rcases hn : m.queueNormalOrder with _ | ⟨o3, r3⟩ <;>
    simp_all [OrderManager.processNextOrder]

theorem worker_tick_contract (m : OrderManager) (b : Bot) (o nxt : Order) :
    (m.processNextOrder.2.1 = some nxt →
      (Bot.processNextOrder m b).2.1.currentOrder
          = some { nxt with counter := if b.type = BotType.VIP then 5 else 10 }
      ∧ (Bot.processNextOrder m b).2.1.status = BotStatus.RUN
      ∧ (Bot.processNextOrder m b).2.1.hasTimer = true
      ∧ (Bot.processNextOrder m b).2.2
          = [{ type := EventType.ORDER_UPDATED }, { type := EventType.ORDER_COUNTER }])
    ∧ (b.currentOrder = some o → o.counter ≠ 1 →
      Bot.tick m b
        = (m, { b with currentOrder := some { o with counter := o.counter - 1 } },
           [{ type := EventType.ORDER_COUNTER }]))
    ∧ (b.currentOrder = some o → o.counter = 1 →
      Bot.tick m b
        = ((Bot.processNextOrder (m.completeOrder { o with counter := 0 }).1
              { b with currentOrder := none, hasTimer := false }).1,
           (Bot.processNextOrder (m.completeOrder { o with counter := 0 }).1
              { b with currentOrder := none, hasTimer := false }).2.1,
           [{ type := EventType.ORDER_COUNTER }, { type := EventType.ORDER_UPDATED }]
             ++ (Bot.processNextOrder (m.completeOrder { o with counter := 0 }).1
                  { b with currentOrder := none, hasTimer := false }).2.2)
      ∧ { o with counter := (0 : Int), status := OrderStatus.COMPLETE }
          ∈ (Bot.tick m b).1.queueComplete) := by
  refine ⟨?_, ?_, ?_⟩
  · intro h
    simp [Bot.processNextOrder, h, processNextOrder_event_of_some m nxt h]
  · intro h hne
    have : ¬ (o.counter - 1 = 0) := by omega
    simp [Bot.tick, h, this]
  · intro h h1
    have hz : o.counter - 1 = 0 := by omega
    constructor
    · simp [Bot.tick, h, hz, OrderManager.completeOrder]
    · simp [Bot.tick, h, hz]
      have hq : ({ o with counter := (0 : Int), status := OrderStatus.COMPLETE } : Order)
          ∈ ((m.completeOrder { o with counter := 0 }).1).queueComplete := by
        simp [OrderManager.completeOrder]
      rcases hpn : (m.completeOrder { o with counter := 0 }).1.queueCache with _ | ⟨a, as⟩
      all_goals {
        generalize hmm : (m.completeOrder { o with counter := 0 }).1 = mc at *
        rcases hc : mc.queueCache with _ | ⟨a1, as1⟩ <;>
          rcases hv : mc.queueVipOrder with _ | ⟨a2, as2⟩ <;>
          rcases hn : mc.queueNormalOrder with _ | ⟨a3, as3⟩ <;>
          simp [Bot.processNextOrder, OrderManager.processNextOrder, hc, hv, hn] <;>
          simp_all
      }

def c6Manager : OrderManager := initOrderManager.createNormalOrder.1

def c6Order : Order :=
  { status := OrderStatus.PENDING, uid := 0, orderType := OrderType.NORMAL,
    counter := 0 }

def c6BotRun5 : Bot :=
  { status := BotStatus.RUN, uid := 0, type := BotType.NORMAL,
    currentOrder := some { c6Order with counter := 5 }, hasTimer := true,
    isDestroyed := false }

def c6BotRun1 : Bot :=
  { status := BotStatus.RUN, uid := 0, type := BotType.NORMAL,
    currentOrder := some { c6Order with counter := 1 }, hasTimer := true,
    isDestroyed := false }

/-- Witness for C6, at a pickup of a freshly created order, a mid-run tick
(counter 5 → 4) and a final tick (counter 1 → 0). -/
theorem worker_tick_contract_witness :
    ((Bot.processNextOrder c6Manager c4IdleBot).2.1.currentOrder
      = some { c6Order with counter := 10 })
    ∧ (Bot.tick initOrderManager c6BotRun5
      = (initOrderManager,
         { c6BotRun5 with currentOrder := some { c6Order with counter := 4 } },
         [{ type := EventType.ORDER_COUNTER }]))
    ∧ ({ c6Order with counter := (0 : Int), status := OrderStatus.COMPLETE }
        ∈ (Bot.tick initOrderManager c6BotRun1).1.queueComplete) :=
  ⟨((worker_tick_contract c6Manager c4IdleBot c6Order c6Order).1 rfl).1,
   (worker_tick_contract initOrderManager c6BotRun5
      { c6Order with counter := 5 } c6Order).2.1 rfl (by decide),
   ((worker_tick_contract initOrderManager c6BotRun1
      { c6Order with counter := 1 } c6Order).2.2 rfl rfl).2⟩

/-! ### Claim C5: the controller wakes every idle bot on ORDER_ADDED -/

theorem createNormalOrder_events (m : OrderManager) :
    m.createNormalOrder.2.2 = [{ type := EventType.ORDER_ADDED }] := rfl

theorem wakeIdleBots_no_orders (bots : List Bot) (m : OrderManager)
    (hc : m.queueCache = []) (hv : m.queueVipOrder = [])
    (hn : m.queueNormalOrder = []) :
    (wakeIdleBots m bots).1 = m ∧ (wakeIdleBots m bots).2.1 = bots := by
  induction bots with
  | nil => simp [wakeIdleBots]
  | cons b rest ih =>
    by_cases hb : b.status = BotStatus.IDLE
    · have hpk : Bot.processNextOrder m b = (m, { b with status := BotStatus.IDLE }, []) := by
        simp [Bot.processNextOrder, OrderManager.processNextOrder, hc, hv, hn]
      have hbeq : ({ b with status := BotStatus.IDLE } : Bot) = b := by
        cases b; simp_all
      simp [wakeIdleBots, hb, hpk, hbeq, ih]
    · simp [wakeIdleBots, hb, ih]

theorem systemCreateNormal_of_idle (s : System) (h : hasIdleBot s.bots = true) :
    (systemCreateNormalOrder s).1
      = { s with manager := (wakeIdleBots s.manager.createNormalOrder.1 s.bots).1,
                 bots := (wakeIdleBots s.manager.createNormalOrder.1 s.bots).2.1 } := by
  simp [systemCreateNormalOrder, createNormalOrder_events, deliverEvents,
        controllerHandler, h]

/-- Claim C5: on an ORDER_ADDED delivery the controller pokes every idle bot.
First part: with all bots idle and all pending queues empty, creating one
normal order makes exactly the first bot RUN (holding the new order) while
every other bot is returned untouched, still IDLE.  Second part (the
"every idle bot, not just one" mechanism): if all bots are idle and the
recovery queue holds at least as many orders as there are bots, the wake pass
sets every bot to RUN. -/
theorem controller_wakes_every_idle_bot :
    (∀ (s : System) (b0 : Bot) (rest : List Bot),
      s.bots = b0 :: rest →
      (∀ bb, bb ∈ s.bots → bb.status = BotStatus.IDLE) →
      s.manager.queueCache = [] → s.manager.queueVipOrder = [] →
      s.manager.queueNormalOrder = [] →
      (systemCreateNormalOrder s).1.bots
          = { b0 with status := BotStatus.RUN,
                      currentOrder := some
                        { s.manager.newOrder OrderType.NORMAL with
                          counter := if b0.type = BotType.VIP then 5 else 10 },
                      hasTimer := true } :: rest
        ∧ (systemCreateNormalOrder s).1.manager.queueCache = []
        ∧ (systemCreateNormalOrder s).1.manager.queueVipOrder = []
        ∧ (systemCreateNormalOrder s).1.manager.queueNormalOrder = [])
    ∧ (∀ (m : OrderManager) (bots : List Bot),
      (∀ bb, bb ∈ bots → bb.status = BotStatus.IDLE) →
      bots.length ≤ m.queueCache.length →
      ∀ bb, bb ∈ (wakeIdleBots m bots).2.1 → bb.status = BotStatus.RUN) := by
  constructor
  · intro s b0 rest hbots hidle hc hv hn
    have hb0 : b0.status = BotStatus.IDLE :=
      hidle b0 (by rw [hbots]; exact List.mem_cons_self b0 rest)
    have hadded : hasIdleBot s.bots = true := by
      rw [hbots]; simp [hasIdleBot]; exact Or.inl hb0
    have hpk : Bot.processNextOrder s.manager.createNormalOrder.1 b0
        = (s.manager.createNormalOrder.1.processNextOrder.1,
           { b0 with status := BotStatus.RUN,
                     currentOrder := some
                       { s.manager.newOrder OrderType.NORMAL with
                         counter := if b0.type = BotType.VIP then 5 else 10 },
                     hasTimer := true },
           [{ type := EventType.ORDER_UPDATED }, { type := EventType.ORDER_COUNTER }]) := by
      simp [Bot.processNextOrder, OrderManager.createNormalOrder,
            OrderManager.processNextOrder, hc, hv, hn]
    have hq : s.manager.createNormalOrder.1.processNextOrder.1.queueCache = []
        ∧ s.manager.createNormalOrder.1.processNextOrder.1.queueVipOrder = []
        ∧ s.manager.createNormalOrder.1.processNextOrder.1.queueNormalOrder = [] := by
      refine ⟨?_, ?_, ?_⟩ <;>
        simp [OrderManager.createNormalOrder, OrderManager.processNextOrder, hc, hv, hn]
    have hrest := wakeIdleBots_no_orders rest
      s.manager.createNormalOrder.1.processNextOrder.1 hq.1 hq.2.1 hq.2.2
    rw [systemCreateNormal_of_idle s hadded]
    rw [hbots]
    simp only [wakeIdleBots, hb0, if_pos, hpk]
    simp [hrest.1, hrest.2, hq.1, hq.2.1, hq.2.2]
  · intro m bots
    induction bots generalizing m with
    | nil => intro _ _ bb hbb; simp [wakeIdleBots] at hbb
    | cons b rest ih =>
      intro hidle hlen bb hbb
      have hb : b.status = BotStatus.IDLE := hidle b (List.mem_cons_self b rest)
      rcases hc : m.queueCache with _ | ⟨o, co⟩
      · rw [hc] at hlen; simp at hlen
      · have hpk : Bot.processNextOrder m b
            = ({ m with queueCache := co },
               { b with status := BotStatus.RUN,
                        currentOrder := some
                          { o with counter := if b.type = BotType.VIP then 5 else 10 },
                        hasTimer := true },
               [{ type := EventType.ORDER_UPDATED }, { type := EventType.ORDER_COUNTER }]) := by
          simp [Bot.processNextOrder, OrderManager.processNextOrder, hc]
        rw [wakeIdleBots] at hbb
        simp only [hb, if_pos, hpk] at hbb
        rcases List.mem_cons.mp hbb with hbb1 | hbb2
        · rw [hbb1]
        · exact ih { m with queueCache := co }
            (fun x hx => hidle x (List.mem_cons_of_mem b hx))
            (by simp [hc] at hlen ⊢; omega) bb hbb2

def c5System : System :=
  { manager := initOrderManager,
    bots := [c4IdleBot, { c4IdleBot with uid := 1 }], nextBotUid := 2 }

def c5CacheManager : OrderManager :=
  { initOrderManager with
    queueCache := [c2Order, { c2Order with uid := 1 }], nextUid := 2 }

/-- Witness for C5: the two-idle-bot scenario, and a wake pass over a
recovery queue holding one order per bot. -/
theorem controller_wakes_witness :
    ((systemCreateNormalOrder c5System).1.bots
        = { c4IdleBot with status := BotStatus.RUN,
                           currentOrder := some
                             { c5System.manager.newOrder OrderType.NORMAL with
                               counter := if c4IdleBot.type = BotType.VIP then 5 else 10 },
                           hasTimer := true } :: [{ c4IdleBot with uid := 1 }]
      ∧ (systemCreateNormalOrder c5System).1.manager.queueCache = []
      ∧ (systemCreateNormalOrder c5System).1.manager.queueVipOrder = []
      ∧ (systemCreateNormalOrder c5System).1.manager.queueNormalOrder = [])
    ∧ (∀ bb, bb ∈ (wakeIdleBots c5CacheManager [c4IdleBot, { c4IdleBot with uid := 1 }]).2.1
        → bb.status = BotStatus.RUN) :=
  ⟨controller_wakes_every_idle_bot.1 c5System c4IdleBot [{ c4IdleBot with uid := 1 }]
     rfl (by decide) rfl rfl rfl,
   controller_wakes_every_idle_bot.2 c5CacheManager [c4IdleBot, { c4IdleBot with uid := 1 }]
     (by decide) (by decide)⟩

/-! ### Claim C10: a recovered order waits for the next ORDER_ADDED -/

/-- Claim C10: recovery (`updateCache`) publishes only ORDER_UPDATED, and the
controller's handler ignores every event that is not ORDER_ADDED; hence
destroying the most recent bot while it holds an order parks that order at
the head of the recovery queue and leaves all remaining bots exactly as they
were — no pickup happens.  Conversely, a later order creation does trigger a
pickup: its ORDER_ADDED wake makes the first idle bot dequeue the parked
order (head of the recovery queue). -/
theorem recovered_order_waits_for_added :
    (∀ (m : OrderManager) (o : Order),
      (m.updateCache o).2 = [{ type := EventType.ORDER_UPDATED }])
    ∧ (∀ (e : OrderEvent) (m : OrderManager) (bots : List Bot),
      e.type ≠ EventType.ORDER_ADDED → controllerHandler e m bots = (m, bots, []))
    ∧ (∀ (s : System) (pool : List Bot) (b : Bot) (o : Order),
      s.bots = pool ++ [b] → b.currentOrder = some o →
      (systemDecrease s).manager.queueCache = o :: s.manager.queueCache
      ∧ (systemDecrease s).bots = pool
      ∧ (systemDecrease s).manager.queueVipOrder = s.manager.queueVipOrder
      ∧ (systemDecrease s).manager.queueNormalOrder = s.manager.queueNormalOrder
      ∧ (systemDecrease s).manager.queueComplete = s.manager.queueComplete)
    ∧ (∀ (s : System) (b0 : Bot) (rest : List Bot) (o : Order) (cr : List Order),
      s.bots = b0 :: rest → b0.status = BotStatus.IDLE →
      s.manager.queueCache = o :: cr →
      (systemCreateNormalOrder s).1.bots.head?
        = some { b0 with status := BotStatus.RUN,
                         currentOrder := some
                           { o with counter := if b0.type = BotType.VIP then 5 else 10 },
                         hasTimer := true }) := by
  have hignore : ∀ (e : OrderEvent) (m : OrderManager) (bots : List Bot),
      e.type ≠ EventType.ORDER_ADDED → controllerHandler e m bots = (m, bots, []) := by
    intro e m bots he
    simp [controllerHandler, he]
  refine ⟨fun m o => rfl, hignore, ?_, ?_⟩
  · intro s pool b o hbots ho
    have hlast : s.bots.getLast? = some b := by rw [hbots]; exact List.getLast?_concat pool
    have hdrop : s.bots.dropLast = pool := by rw [hbots]; exact List.dropLast_concat
    have hdes : Bot.destroy s.manager b
        = ({ s.manager with queueCache := o :: s.manager.queueCache },
           { b with hasTimer := false, currentOrder := none,
                    status := BotStatus.IDLE, isDestroyed := true },
           [{ type := EventType.ORDER_UPDATED }]) := by
      simp [Bot.destroy, OrderManager.updateCache, ho]
    simp [systemDecrease, hlast, hdes, hdrop, deliverEvents, hignore]
  · intro s b0 rest o cr hbots hb0 hc
    have hadded : hasIdleBot s.bots = true := by
      rw [hbots]; simp [hasIdleBot]; exact Or.inl hb0
    have hc' : s.manager.createNormalOrder.1.queueCache = o :: cr := by
      simp [OrderManager.createNormalOrder, hc]
    have hpk : (Bot.processNextOrder s.manager.createNormalOrder.1 b0).2.1
        = { b0 with status := BotStatus.RUN,
                    currentOrder := some
                      { o with counter := if b0.type = BotType.VIP then 5 else 10 },
                    hasTimer := true } := by
      simp [Bot.processNextOrder, OrderManager.processNextOrder, hc']
    rw [systemCreateNormal_of_idle s hadded, hbots]
    simp only [wakeIdleBots, hb0, if_pos]
    simp [hpk]

def c10System : System :=
  { manager := initOrderManager, bots := [c4IdleBot, c4RunBot], nextBotUid := 2 }

def c10AfterSystem : System :=
  { manager := { initOrderManager with queueCache := [c4HeldOrder], nextUid := 4 },
    bots := [c4IdleBot], nextBotUid := 2 }

/-- Witness for C10: destroying the running bot of a two-bot pool parks its
order; the handler visibly ignores an ORDER_UPDATED; a later creation makes
the remaining idle bot pick the parked order. -/
theorem recovered_order_waits_witness :
    (controllerHandler { type := EventType.ORDER_UPDATED } initOrderManager []
      = (initOrderManager, [], []))
    ∧ ((systemDecrease c10System).manager.queueCache
        = c4HeldOrder :: c10System.manager.queueCache
      ∧ (systemDecrease c10System).bots = [c4IdleBot])
    ∧ ((systemCreateNormalOrder c10AfterSystem).1.bots.head?
        = some { c4IdleBot with status := BotStatus.RUN,
                                currentOrder := some
                                  { c4HeldOrder with
                                    counter := if c4IdleBot.type = BotType.VIP then 5 else 10 },
                                hasTimer := true }) :=
  ⟨recovered_order_waits_for_added.2.1 { type := EventType.ORDER_UPDATED }
     initOrderManager [] (by decide),
   ⟨(recovered_order_waits_for_added.2.2.1 c10System [c4IdleBot] c4RunBot
       c4HeldOrder rfl rfl).1,
    (recovered_order_waits_for_added.2.2.1 c10System [c4IdleBot] c4RunBot
       c4HeldOrder rfl rfl).2.1⟩,
   recovered_order_waits_for_added.2.2.2 c10AfterSystem c4IdleBot [] c4HeldOrder []
     rfl rfl rfl⟩

/-! ### Claim C9: a held order is in no registry collection -/

/-- The uid held by one bot (empty when it holds nothing). -/
def botHeldUids (b : Bot) : List Nat :=
  match b.currentOrder with
  | none => []
  | some o => [o.uid]

/-- All uids held by a pool of bots, in pool order. -/
def heldUids : List Bot → List Nat
  | [] => []
  | b :: rest => botHeldUids b ++ heldUids rest

/-- All uids present in the registry's four collections. -/
def mUids (m : OrderManager) : List Nat := m.getOrderList.map Order.uid

/-- How often uid `u` occurs across the registry's collections and all bots'
held slots. -/
def sysCount (s : System) (u : Nat) : Nat :=
  (mUids s.manager).count u + (heldUids s.bots).count u

/-- The inductive invariant: no uid is duplicated, every present uid is below
the uid counter, and an IDLE bot holds nothing. -/
def SysInv (s : System) : Prop :=
  (∀ u, sysCount s u ≤ 1)
  ∧ (∀ u, s.manager.nextUid ≤ u → sysCount s u = 0)
  ∧ (∀ b, b ∈ s.bots → b.status = BotStatus.IDLE → b.currentOrder = none)

theorem heldUids_append (l1 l2 : List Bot) :
    heldUids (l1 ++ l2) = heldUids l1 ++ heldUids l2 := by
  induction l1 with
  | nil => simp [heldUids]
  | cons b rest ih => simp [heldUids, ih]

theorem pickup_preserves (m : OrderManager) (b : Bot)
    (hb : b.currentOrder = none) :
    ((Bot.processNextOrder m b).1.nextUid = m.nextUid)
    ∧ (∀ u, (mUids (Bot.processNextOrder m b).1).count u
          + (botHeldUids (Bot.processNextOrder m b).2.1).count u
        = (mUids m).count u)
    ∧ ((Bot.processNextOrder m b).2.1.status = BotStatus.IDLE →
        (Bot.processNextOrder m b).2.1.currentOrder = none) := by
  refine ⟨?_, ?_, ?_⟩
  · rcases hc : m.queueCache with _ | ⟨o1, r1⟩ <;>
      rcases hv : m.queueVipOrder with _ | ⟨o2, r2⟩ <;>
      rcases hn : m.queueNormalOrder with _ | ⟨o3, r3⟩ <;>
      simp [Bot.processNextOrder, OrderManager.processNextOrder, hc, hv, hn]
  · intro u
    rcases hc : m.queueCache with _ | ⟨o1, r1⟩ <;>
      rcases hv : m.queueVipOrder with _ | ⟨o2, r2⟩ <;>
      rcases hn : m.queueNormalOrder with _ | ⟨o3, r3⟩ <;>
      simp [Bot.processNextOrder, OrderManager.processNextOrder, hc, hv, hn,
            mUids, OrderManager.getOrderList, botHeldUids, hb, List.count_append,
            List.count_cons]
  · intro hs
    rcases hc : m.queueCache with _ | ⟨o1, r1⟩ <;>
      rcases hv : m.queueVipOrder with _ | ⟨o2, r2⟩ <;>
      rcases hn : m.queueNormalOrder with _ | ⟨o3, r3⟩ <;>
      simp_all [Bot.processNextOrder, OrderManager.processNextOrder]

theorem wake_preserves (bots : List Bot) (m : OrderManager)
    (hbots : ∀ b, b ∈ bots → b.status = BotStatus.IDLE → b.currentOrder = none) :
    ((wakeIdleBots m bots).1.nextUid = m.nextUid)
    ∧ (∀ u, (mUids (wakeIdleBots m bots).1).count u
          + (heldUids (wakeIdleBots m bots).2.1).count u
        = (mUids m).count u + (heldUids bots).count u)
    ∧ (∀ b, b ∈ (wakeIdleBots m bots).2.1 →
        b.status = BotStatus.IDLE → b.currentOrder = none) := by
  induction bots generalizing m with
  | nil => simp [wakeIdleBots, heldUids]
  | cons b rest ih =>
    by_cases hb : b.status = BotStatus.IDLE
    · have hbn : b.currentOrder = none := hbots b (List.mem_cons_self b rest) hb
      have hp := pickup_preserves m b hbn
      have hr := ih (Bot.processNextOrder m b).1
        (fun x hx => hbots x (List.mem_cons_of_mem b hx))
      refine ⟨?_, ?_, ?_⟩
      · simp only [wakeIdleBots, hb, if_pos]
        exact hr.1.trans hp.1
      · intro u
        have h1 := hr.2.1 u
        have h2 := hp.2.1 u
        simp only [wakeIdleBots, hb, if_pos]
        simp [heldUids, List.count_append, botHeldUids, hbn] at h1 h2 ⊢
        omega
      · intro x hx
        simp only [wakeIdleBots, hb, if_pos] at hx
        rcases List.mem_cons.mp hx with h1 | h2
        · subst h1; exact hp.2.2
        · exact hr.2.2 x h2
    · have hr := ih m (fun x hx => hbots x (List.mem_cons_of_mem b hx))
      refine ⟨?_, ?_, ?_⟩
      · simp only [wakeIdleBots, hb, if_neg, ite_false]
        exact hr.1
      · intro u
        have h1 := hr.2.1 u
        simp only [wakeIdleBots, hb, if_neg, ite_false]
        simp [heldUids, List.count_append] at h1 ⊢
        omega
      · intro x hx
        simp only [wakeIdleBots, hb, if_neg, ite_false] at hx
        rcases List.mem_cons.mp hx with h1 | h2
        · subst h1; exact fun hs => hbots x (List.mem_cons_self x rest) hs
        · exact hr.2.2 x h2

theorem deliver_preserves (evts : List OrderEvent) (m : OrderManager) (bots : List Bot)
    (hbots : ∀ b, b ∈ bots → b.status = BotStatus.IDLE → b.currentOrder = none) :
    ((deliverEvents m bots evts).1.nextUid = m.nextUid)
    ∧ (∀ u, (mUids (deliverEvents m bots evts).1).count u
          + (heldUids (deliverEvents m bots evts).2).count u
        = (mUids m).count u + (heldUids bots).count u)
    ∧ (∀ b, b ∈ (deliverEvents m bots evts).2 →
        b.status = BotStatus.IDLE → b.currentOrder = none) := by
  induction evts generalizing m bots with
  | nil => exact ⟨rfl, fun u => rfl, hbots⟩
  | cons e rest ih =>
    by_cases hcond : e.type = EventType.ORDER_ADDED ∧ hasIdleBot bots = true
    · have hred : controllerHandler e m bots = wakeIdleBots m bots := by
        simp only [controllerHandler]; rw [if_pos hcond]
      have hw := wake_preserves bots m hbots
      have hr := ih (wakeIdleBots m bots).1 (wakeIdleBots m bots).2.1 hw.2.2
      refine ⟨?_, ?_, ?_⟩
      · simp only [deliverEvents, hred]
        exact hr.1.trans hw.1
      · intro u
        have h1 := hr.2.1 u
        have h2 := hw.2.1 u
        simp only [deliverEvents, hred]
        omega
      · intro x hx
        simp only [deliverEvents, hred] at hx
        exact hr.2.2 x hx
    · have hred : controllerHandler e m bots = (m, bots, []) := by
        simp only [controllerHandler]; rw [if_neg hcond]
      have hr := ih m bots hbots
      refine ⟨?_, ?_, ?_⟩
      · simp only [deliverEvents, hred]
        exact hr.1
      · intro u
        have h1 := hr.2.1 u
        simp only [deliverEvents, hred]
        omega
      · intro x hx
        simp only [deliverEvents, hred] at hx
        exact hr.2.2 x hx

theorem createNormal_counts (m : OrderManager) :
    (m.createNormalOrder.1.nextUid = m.nextUid + 1)
    ∧ (∀ u, (mUids m.createNormalOrder.1).count u
        = (mUids m).count u + (if m.nextUid = u then 1 else 0))
    ∧ (m.createVipOrder.1.nextUid = m.nextUid + 1)
    ∧ (∀ u, (mUids m.createVipOrder.1).count u
        = (mUids m).count u + (if m.nextUid = u then 1 else 0)) := by
  refine ⟨rfl, fun u => ?_, rfl, fun u => ?_⟩ <;>
    simp [OrderManager.createNormalOrder, OrderManager.createVipOrder,
          OrderManager.newOrder, mUids, OrderManager.getOrderList,
          List.count_append, List.count_cons] <;>
    omega

theorem sysInv_of_create (s : System) (h : SysInv s) (m1 : OrderManager)
    (evts : List OrderEvent)
    (hn : m1.nextUid = s.manager.nextUid + 1)
    (hcnt : ∀ u, (mUids m1).count u
      = (mUids s.manager).count u + (if s.manager.nextUid = u then 1 else 0)) :
    SysInv { s with manager := (deliverEvents m1 s.bots evts).1,
                    bots := (deliverEvents m1 s.bots evts).2 } := by
  obtain ⟨h1, h2, h3⟩ := h
  have hd := deliver_preserves evts m1 s.bots h3
  refine ⟨?_, ?_, ?_⟩
  · intro u
    have ha := hd.2.1 u
    have hb := hcnt u
    have hc := h1 u
    have h0 := h2 s.manager.nextUid (le_refl _)
    simp only [sysCount] at *
    by_cases he : s.manager.nextUid = u
    · subst he; simp at hb; omega
    · simp [he] at hb; omega
  · intro u hu
    have ha := hd.2.1 u
    have hb := hcnt u
    simp only [sysCount] at *
    have hu' : m1.nextUid ≤ u := by
      have hx := hd.1
      have hu2 : (deliverEvents m1 s.bots evts).1.nextUid ≤ u := hu
      omega
    have hne : s.manager.nextUid ≠ u := by omega
    have h0 := h2 u (by omega)
    simp [hne] at hb
    omega
  · exact hd.2.2

/-- `systemCreateNormalOrder` preserves the invariant. -/
theorem sysInv_createNormal (s : System) (h : SysInv s) :
    SysInv (systemCreateNormalOrder s).1 := by
  have hcc := createNormal_counts s.manager
  exact sysInv_of_create s h s.manager.createNormalOrder.1
    s.manager.createNormalOrder.2.2 hcc.1 hcc.2.1

/-- `systemCreateVipOrder` preserves the invariant. -/
theorem sysInv_createVip (s : System) (h : SysInv s) :
    SysInv (systemCreateVipOrder s).1 := by
  have hcc := createNormal_counts s.manager
  exact sysInv_of_create s h s.manager.createVipOrder.1
    s.manager.createVipOrder.2.2 hcc.2.2.1 hcc.2.2.2

/-- `systemIncrease` preserves the invariant. -/
theorem sysInv_increase (s : System) (t : BotType) (h : SysInv s) :
    SysInv (systemIncrease s t) := by
  obtain ⟨h1, h2, h3⟩ := h
  have hp := pickup_preserves s.manager
    { status := BotStatus.IDLE, uid := s.nextBotUid, type := t,
      currentOrder := none, hasTimer := false, isDestroyed := false } rfl
  have hd := deliver_preserves
    (Bot.processNextOrder s.manager
      { status := BotStatus.IDLE, uid := s.nextBotUid, type := t,
        currentOrder := none, hasTimer := false, isDestroyed := false }).2.2
    (Bot.processNextOrder s.manager
      { status := BotStatus.IDLE, uid := s.nextBotUid, type := t,
        currentOrder := none, hasTimer := false, isDestroyed := false }).1
    s.bots h3
  simp only [systemIncrease, Bot.make]
  refine ⟨?_, ?_, ?_⟩
  · intro u
    have ha := hd.2.1 u
    have hb := hp.2.1 u
    have hc := h1 u
    simp only [sysCount] at *
    rw [heldUids_append, List.count_append]
    simp only [heldUids, List.count_append, List.count_nil]
    omega
  · intro u hu
    have ha := hd.2.1 u
    have hb := hp.2.1 u
    have hx1 := hd.1
    have hx2 := hp.1
    have h0 := h2 u (by
      simp only [sysCount] at *
      omega)
    simp only [sysCount] at *
    rw [heldUids_append, List.count_append]
    simp only [heldUids, List.count_append, List.count_nil]
    omega
  · intro x hx
    rcases List.mem_append.mp hx with h1m | h2m
    · exact hd.2.2 x h1m
    · have hxeq : x = (Bot.processNextOrder s.manager
          { status := BotStatus.IDLE, uid := s.nextBotUid, type := t,
            currentOrder := none, hasTimer := false, isDestroyed := false }).2.1 := by
        simpa using h2m
      subst hxeq
      exact hp.2.2

theorem getLast?_decomp (l : List Bot) (a : Bot) (h : l.getLast? = some a) :
    l.dropLast ++ [a] = l := by
  induction l with
  | nil => simp at h
  | cons x xs ih =>
    cases xs with
    | nil => simp at h; simp [h]
    | cons y ys =>
      rw [List.getLast?_cons_cons] at h
      have hx := ih h
      simpa using hx

theorem destroy_counts (m : OrderManager) (b : Bot) :
    ((Bot.destroy m b).1.nextUid = m.nextUid)
    ∧ (∀ u, (mUids (Bot.destroy m b).1).count u
        = (mUids m).count u + (botHeldUids b).count u) := by
  rcases hb : b.currentOrder with _ | o <;>
    refine ⟨?_, fun u => ?_⟩ <;>
    simp [Bot.destroy, OrderManager.updateCache, botHeldUids, hb, mUids,
          OrderManager.getOrderList, List.count_append, List.count_cons]

/-- `systemDecrease` preserves the invariant. -/
theorem sysInv_decrease (s : System) (h : SysInv s) :
    SysInv (systemDecrease s) := by
  obtain ⟨h1, h2, h3⟩ := h
  rcases hl : s.bots.getLast? with _ | b
  · simpa [systemDecrease, hl] using ⟨h1, h2, h3⟩
  · have hdec := getLast?_decomp s.bots b hl
    have hds := destroy_counts s.manager b
    have hd := deliver_preserves (Bot.destroy s.manager b).2.2
      (Bot.destroy s.manager b).1 s.bots.dropLast
      (fun x hx => h3 x (by rw [← hdec]; exact List.mem_append_left _ hx))
    have hsb : ∀ u, (heldUids s.bots).count u
        = (heldUids s.bots.dropLast).count u + (botHeldUids b).count u := by
      intro u
      conv_lhs => rw [← hdec]
      rw [heldUids_append, List.count_append]
      simp [heldUids]
    simp only [systemDecrease, hl]
    refine ⟨?_, ?_, ?_⟩
    · intro u
      have ha := hd.2.1 u
      have hb2 := hds.2 u
      have hc := h1 u
      have he := hsb u
      simp only [sysCount] at *
      omega
    · intro u hu
      have ha := hd.2.1 u
      have hb2 := hds.2 u
      have he := hsb u
      have hx1 := hd.1
      have hx2 := hds.1
      have h0 := h2 u (by
        simp only [sysCount] at *
        omega)
      simp only [sysCount] at *
      omega
    · exact hd.2.2

theorem complete_counts (m : OrderManager) (o : Order) :
    ((m.completeOrder o).1.nextUid = m.nextUid)
    ∧ (∀ u, (mUids (m.completeOrder o).1).count u
        = (mUids m).count u + (if o.uid = u then 1 else 0)) := by
  refine ⟨rfl, fun u => ?_⟩
  simp [OrderManager.completeOrder, mUids, OrderManager.getOrderList,
        List.count_append, List.count_cons]
  omega

theorem tick_counts (m : OrderManager) (b : Bot)
    (hIdle : b.status = BotStatus.IDLE → b.currentOrder = none) :
    ((Bot.tick m b).1.nextUid = m.nextUid)
    ∧ (∀ u, (mUids (Bot.tick m b).1).count u
          + (botHeldUids (Bot.tick m b).2.1).count u
        = (mUids m).count u + (botHeldUids b).count u)
    ∧ ((Bot.tick m b).2.1.status = BotStatus.IDLE →
        (Bot.tick m b).2.1.currentOrder = none) := by
  rcases hb : b.currentOrder with _ | o
  · refine ⟨?_, fun u => ?_, ?_⟩ <;> simp [Bot.tick, hb]
  · by_cases hz : o.counter - 1 = 0
    · have hcm := complete_counts m { o with counter := (0 : Int) }
      have hp := pickup_preserves (m.completeOrder { o with counter := (0 : Int) }).1
        { b with currentOrder := none, hasTimer := false } rfl
      refine ⟨?_, fun u => ?_, ?_⟩
      · simp only [Bot.tick, hb]
        simp [hz]
        rw [hp.1, hcm.1]
      · have ha := hp.2.1 u
        have hc := hcm.2 u
        simp only [Bot.tick, hb]
        simp [hz, botHeldUids, List.count_cons, hb] at *
        omega
      · simp only [Bot.tick, hb]
        simp [hz]
        exact hp.2.2
    · refine ⟨?_, fun u => ?_, ?_⟩
      · simp [Bot.tick, hb, hz]
      · simp [Bot.tick, hb, hz, botHeldUids]
      · simp [Bot.tick, hb, hz]
        intro hs
        have hn := hIdle hs
        rw [hn] at hb
        cases hb

theorem heldUids_set_count (bots : List Bot) (i : Nat) (b b' : Bot)
    (h : bots[i]? = some b) (u : Nat) :
    (heldUids (bots.set i b')).count u + (botHeldUids b).count u
      = (heldUids bots).count u + (botHeldUids b').count u := by
  induction bots generalizing i with
  | nil => simp at h
  | cons x xs ih =>
    cases i with
    | zero =>
      simp at h
      subst h
      simp [heldUids, List.count_append]
      omega
    | succ j =>
      simp at h
      have hx := ih j h
      simp [heldUids, List.count_append, List.set]
      omega

/-- `systemTick` preserves the invariant. -/
theorem sysInv_tick (s : System) (i : Nat) (h : SysInv s) :
    SysInv (systemTick s i) := by
  obtain ⟨h1, h2, h3⟩ := h
  rcases hg : s.bots[i]? with _ | b
  · simpa [systemTick, hg] using ⟨h1, h2, h3⟩
  · by_cases ht : b.hasTimer = true
    · have hbmem : b ∈ s.bots := by
        have := List.getElem?_eq_some.mp hg
        rcases this with ⟨hw, hwe⟩
        exact hwe ▸ List.getElem_mem hw
      have htc := tick_counts s.manager b (h3 b hbmem)
      have hd := deliver_preserves (Bot.tick s.manager b).2.2
        (Bot.tick s.manager b).1 (s.bots.set i (Bot.tick s.manager b).2.1)
        (by
          intro x hx
          rcases List.mem_or_eq_of_mem_set hx with hx1 | hx2
          · exact h3 x hx1
          · subst hx2; exact htc.2.2)
      have hset := fun u => heldUids_set_count s.bots i b (Bot.tick s.manager b).2.1 hg u
      simp only [systemTick, hg, ht, if_pos]
      refine ⟨?_, ?_, ?_⟩
      · intro u
        have ha := hd.2.1 u
        have hb2 := htc.2.1 u
        have hc := h1 u
        have he := hset u
        simp only [sysCount] at *
        omega
      · intro u hu
        have ha := hd.2.1 u
        have hb2 := htc.2.1 u
        have he := hset u
        have hx1 := hd.1
        have hx2 := htc.1
        have h0 := h2 u (by
          simp only [sysCount] at *
          omega)
        simp only [sysCount] at *
        omega
      · exact hd.2.2
    · simpa [systemTick, hg, ht] using ⟨h1, h2, h3⟩

/-- Every reachable system state satisfies the invariant. -/
theorem reachable_sysInv (s : System) (h : Reachable s) : SysInv s := by
  induction h with
  | init =>
    refine ⟨?_, ?_, ?_⟩ <;>
      simp [sysCount, initSystem, initOrderManager, mUids,
            OrderManager.getOrderList, heldUids]
  | createNormal s _ ih => exact sysInv_createNormal s ih
  | createVip s _ ih => exact sysInv_createVip s ih
  | increase s t _ ih => exact sysInv_increase s t ih
  | decrease s _ ih => exact sysInv_decrease s ih
  | tick s i _ ih => exact sysInv_tick s i ih

theorem heldUids_count_of_mem (bots : List Bot) (b : Bot) (o : Order)
    (hb : b ∈ bots) (ho : b.currentOrder = some o) :
    1 ≤ (heldUids bots).count o.uid := by
  induction bots with
  | nil => simp at hb
  | cons x xs ih =>
    rcases List.mem_cons.mp hb with h1 | h2
    · subst h1
      simp [heldUids, List.count_append, botHeldUids, ho]
    · have := ih h2
      simp [heldUids, List.count_append]
      omega

/-- Claim C9: in every reachable system state, an order held by some bot does
not occur in any of the registry's four collections, hence not in
`getOrderList`. -/
theorem held_order_not_in_snapshot (s : System) (hs : Reachable s) (b : Bot)
    (hb : b ∈ s.bots) (o : Order) (ho : b.currentOrder = some o) :
    o.uid ∉ (s.manager.getOrderList.map Order.uid) := by
  have hinv := reachable_sysInv s hs
  intro hmem
  have h1 : 0 < (mUids s.manager).count o.uid := by
    rw [List.count_pos_iff]
    exact hmem
  have h2 := heldUids_count_of_mem s.bots b o hb ho
  have h3 := hinv.1 o.uid
  simp only [sysCount] at h3
  omega

def c9System : System :=
  systemIncrease (systemCreateNormalOrder initSystem).1 BotType.NORMAL

def c9Bot : Bot :=
  { status := BotStatus.RUN, uid := 0, type := BotType.NORMAL,
    currentOrder := some { status := OrderStatus.PENDING, uid := 0,
                           orderType := OrderType.NORMAL, counter := 10 },
    hasTimer := true, isDestroyed := false }

/-- Witness for C9: create one normal order, then add one bot (which picks it
up); its held order is absent from the snapshot. -/
theorem held_order_not_in_snapshot_witness :
    (0 : Nat) ∉ (c9System.manager.getOrderList.map Order.uid) :=
  held_order_not_in_snapshot c9System
    (Reachable.increase (systemCreateNormalOrder initSystem).1 BotType.NORMAL
      (Reachable.createNormal initSystem Reachable.init))
    c9Bot (by decide)
    { status := OrderStatus.PENDING, uid := 0,
      orderType := OrderType.NORMAL, counter := 10 }
    rfl

end Engine
